import Mathlib

/-!
Shallow embedding of `integration-tests/features/environment.py`.

The file models, faithfully to the Python source:
* the VM lifecycle helper (`VirtualMachineHelper`) with its machine
  registry (a dict from logical names to backing hostnames) and its
  `contextlib.ExitStack` of teardown callbacks,
* the vagrant command wrappers (`_vm_up`, `_vm_halt`, `_vm_destroy`) built
  on `_run_command` with its `ignore_errors` policy,
* the migration listing parser `MigrationInfo.from_vm_list`,
* the HTTP polling helper `RequestsHelper.get_response` (deadline loop over
  a monotonic clock) and `RequestsHelper.compare_redeployed_response`,
* the behave hooks (`before_all`, the scenario hooks, `after_all`) with the
  process-wide and per-scenario cleanup stacks.

External effects (subprocess results, HTTP attempts, the monotonic clock)
are supplied by explicit environment records; Python exceptions are
modelled as explicit error values.
-/

/-! ## Errors raised by the Python code -/

/-- Python-level exceptions that the embedded code can raise:
`KeyError` (dict lookups/pops), `ValueError` (unknown VM image),
`subprocess.CalledProcessError` surfaced by `_run_command` when
`ignore_errors` is false, and `IndexError` (`machine["ip"][0]` on an
empty list). -/
inductive Err where
  | keyError
  | valueError
  | commandFailed
  | indexError
deriving DecidableEq

/-! ## Migration listing parsing (`MigrationInfo`) -/

/-- One machine record of the `list-machines --shallow` JSON output:
a hostname and its list of IP addresses. -/
structure Machine where
  hostname : String
  ip : List String
deriving DecidableEq

/-- Result record built by `MigrationInfo.from_vm_list`: total number of
VMs in the listing plus the captured source/target addresses
(`None` when the corresponding hostname was not seen). -/
structure MigrationInfo where
  local_vm_count : Nat
  source_ip : Option String
  target_ip : Option String
deriving DecidableEq

/-- The `for machine in machines` loop body of `MigrationInfo.from_vm_list`:
for each record, if its hostname equals the source (resp. target) host the
record's first address `machine["ip"][0]` is captured (raising `IndexError`
when the address list is empty, exactly as the Python subscript does); the
loop breaks as soon as both addresses are set. -/
def from_vm_list_loop (source_host target_host : String) :
    List Machine → Option String → Option String →
      Except Err (Option String × Option String)
  | [], source_ip, target_ip => .ok (source_ip, target_ip)
  | machine :: rest, source_ip, target_ip =>
    let srcStep : Except Err (Option String) :=
      if machine.hostname = source_host then
        match machine.ip.head? with
        | none => .error Err.indexError
        | some addr => .ok (some addr)
      else .ok source_ip
    match srcStep with
    | .error e => .error e
    | .ok source_ip2 =>
      let tgtStep : Except Err (Option String) :=
        if machine.hostname = target_host then
          match machine.ip.head? with
          | none => .error Err.indexError
          | some addr => .ok (some addr)
        else .ok target_ip
      match tgtStep with
      | .error e => .error e
      | .ok target_ip2 =>
        if source_ip2.isSome && target_ip2.isSome then .ok (source_ip2, target_ip2)
        else from_vm_list_loop source_host target_host rest source_ip2 target_ip2

/-- Model of `MigrationInfo.from_vm_list(machines, source_host, target_host)`:
`vm_count = len(machines)` is taken up front, then the listing is scanned
once by `from_vm_list_loop` starting from `source_ip = target_ip = None`. -/
def MigrationInfo.from_vm_list (machines : List Machine)
    (source_host target_host : String) : Except Err MigrationInfo :=
  match from_vm_list_loop source_host target_host machines none none with
  | .error e => .error e
  | .ok (source_ip, target_ip) => .ok ⟨machines.length, source_ip, target_ip⟩

theorem from_vm_list_loop_target_absent (source_host target_host : String) :
    ∀ (machines : List Machine) (source_ip : Option String),
      (∀ m ∈ machines, m.ip ≠ []) →
      (∀ m ∈ machines, m.hostname ≠ target_host) →
      ∃ source_ip2,
        from_vm_list_loop source_host target_host machines source_ip none =
          .ok (source_ip2, none) := by
  intro machines
  induction machines with
  | nil => exact fun source_ip _ _ => ⟨source_ip, rfl⟩
  | cons machine rest ih =>
    intro source_ip hip ht
    have hmt : machine.hostname ≠ target_host := ht machine (List.mem_cons_self _ _)
    by_cases hms : machine.hostname = source_host
    · obtain ⟨addr, tl, hiptl⟩ : ∃ a tl, machine.ip = a :: tl := by
        cases hcase : machine.ip with
        | nil => exact absurd hcase (hip machine (List.mem_cons_self _ _))
        | cons a tl => exact ⟨a, tl, rfl⟩
      have hst : source_host ≠ target_host := hms ▸ hmt
      have := ih (some addr) (fun m hm => hip m (List.mem_cons_of_mem _ hm))
        (fun m hm => ht m (List.mem_cons_of_mem _ hm))
      simpa [from_vm_list_loop, hms, hmt, hst, hiptl] using this
    · have := ih source_ip (fun m hm => hip m (List.mem_cons_of_mem _ hm))
        (fun m hm => ht m (List.mem_cons_of_mem _ hm))
      simpa [from_vm_list_loop, hms, hmt] using this

/-- C6: `MigrationResult.fromListing` on the two-record listing with
source `"a"` and target `"b"` yields count 2 and both addresses; and on
every listing (records with non-empty address lists, as the spec's data
model requires) in which the target hostname is absent, it succeeds with
`target_ip` absent and count equal to the total number of records. -/
theorem c6_from_vm_list_spec :
    MigrationInfo.from_vm_list
        [⟨"a", ["1.1.1.1"]⟩, ⟨"b", ["2.2.2.2"]⟩] "a" "b" =
      .ok ⟨2, some "1.1.1.1", some "2.2.2.2"⟩ ∧
    ∀ (machines : List Machine) (source_host target_host : String),
      (∀ m ∈ machines, m.ip ≠ []) →
      (∀ m ∈ machines, m.hostname ≠ target_host) →
      ∃ source_ip,
        MigrationInfo.from_vm_list machines source_host target_host =
          .ok ⟨machines.length, source_ip, none⟩ := by
  constructor
  · rfl
  · intro machines source_host target_host hip ht
    obtain ⟨source_ip2, hloop⟩ :=
      from_vm_list_loop_target_absent source_host target_host machines none hip ht
    exact ⟨source_ip2, by simp [MigrationInfo.from_vm_list, hloop]⟩

/-- Witness for C6: the universal part evaluated on a concrete one-record
listing whose target hostname is absent. -/
theorem c6_from_vm_list_spec_witness :
    ∃ source_ip,
      MigrationInfo.from_vm_list [⟨"p", ["3.3.3.3"]⟩] "p" "q" =
        .ok ⟨1, source_ip, none⟩ :=
  c6_from_vm_list_spec.2 [⟨"p", ["3.3.3.3"]⟩] "p" "q"
    (by intro m hm; simp at hm; subst hm; simp)
    (by intro m hm; simp at hm; subst hm; decide)

theorem from_vm_list_loop_total (source_host target_host : String) :
    ∀ (machines : List Machine) (source_ip target_ip : Option String),
      (∀ m ∈ machines, m.ip ≠ []) →
      ∃ result,
        from_vm_list_loop source_host target_host machines source_ip target_ip =
          .ok result := by
  intro machines
  induction machines with
  | nil => exact fun source_ip target_ip _ => ⟨(source_ip, target_ip), rfl⟩
  | cons machine rest ih =>
    intro source_ip target_ip hip
    have hrest := fun m hm => hip m (List.mem_cons_of_mem _ hm)
    obtain ⟨addr, tl, hiptl⟩ : ∃ a tl, machine.ip = a :: tl := by
      cases hcase : machine.ip with
      | nil => exact absurd hcase (hip machine (List.mem_cons_self _ _))
      | cons a tl => exact ⟨a, tl, rfl⟩
    have h1 : (if machine.hostname = source_host then
          match machine.ip.head? with
          | none => Except.error Err.indexError
          | some addr2 => Except.ok (some addr2)
        else Except.ok source_ip) =
        Except.ok (if machine.hostname = source_host then some addr else source_ip) := by
      by_cases hms : machine.hostname = source_host <;> simp [hms, hiptl]
    have h2 : (if machine.hostname = target_host then
          match machine.ip.head? with
          | none => Except.error Err.indexError
          | some addr2 => Except.ok (some addr2)
        else Except.ok target_ip) =
        Except.ok (if machine.hostname = target_host then some addr else target_ip) := by
      by_cases hmt : machine.hostname = target_host <;> simp [hmt, hiptl]
    simp only [from_vm_list_loop, h1, h2]
    repeat' split
    all_goals first | exact ⟨_, rfl⟩ | exact ih _ _ hrest

/-- C10 counterexample: on the listing `[{host:"a", ip:[]}]` with
source `"a"`, the first-address subscript `machine["ip"][0]` raises
`IndexError` — the operation fails instead of reporting the address as
absent, refuting the claim's empty-address clause. -/
theorem c10_counterexample :
    MigrationInfo.from_vm_list [⟨"a", []⟩] "a" "b" = .error Err.indexError := by
  rfl

/-- C10 (amended): when every record's address list is non-empty the
first-address lookup is in bounds and `from_vm_list` is total; but a record
whose hostname matches the source or the target while its address list is
empty makes the operation fail with `IndexError` (shown here for a matching
record at the head of the listing), rather than reporting the address as
absent. -/
theorem c10_first_address_safety :
    (∀ (machines : List Machine) (source_host target_host : String),
      (∀ m ∈ machines, m.ip ≠ []) →
      ∃ result,
        MigrationInfo.from_vm_list machines source_host target_host = .ok result) ∧
    (∀ (machine : Machine) (rest : List Machine) (source_host target_host : String),
      (machine.hostname = source_host ∨ machine.hostname = target_host) →
      machine.ip = [] →
      MigrationInfo.from_vm_list (machine :: rest) source_host target_host =
        .error Err.indexError) := by
  constructor
  · intro machines source_host target_host hip
    obtain ⟨result, hres⟩ :=
      from_vm_list_loop_total source_host target_host machines none none hip
    exact ⟨⟨machines.length, result.1, result.2⟩,
      by simp [MigrationInfo.from_vm_list, hres]⟩
  · intro machine rest source_host target_host hmatch hempty
    by_cases hms : machine.hostname = source_host
    · simp [MigrationInfo.from_vm_list, from_vm_list_loop, hms, hempty]
    · have hmt : machine.hostname = target_host := hmatch.resolve_left hms
      have hts : ¬target_host = source_host := by rw [← hmt]; exact hms
      simp [MigrationInfo.from_vm_list, from_vm_list_loop, hms, hmt, hts, hempty]

/-- Witness for C10: both parts of the amended claim evaluated on concrete
listings. -/
theorem c10_first_address_safety_witness :
    (∃ result,
      MigrationInfo.from_vm_list [⟨"u", ["7.7.7.7"]⟩] "u" "v" = .ok result) ∧
    MigrationInfo.from_vm_list [⟨"v", []⟩, ⟨"u", ["7.7.7.7"]⟩] "u" "v" =
      .error Err.indexError :=
  ⟨c10_first_address_safety.1 [⟨"u", ["7.7.7.7"]⟩] "u" "v"
      (by intro m hm; simp at hm; subst hm; simp),
    c10_first_address_safety.2 ⟨"v", []⟩ [⟨"u", ["7.7.7.7"]⟩] "u" "v"
      (Or.inr rfl) rfl⟩

/-! ## Service status checking (`RequestsHelper`) -/

/-- An HTTP response as used by the comparison code: status code and body
text (headers are unused by the core logic). -/
structure HttpResponse where
  status_code : Nat
  text : String
deriving DecidableEq

/-- The `AssertionError`s raised by `RequestsHelper`: the two
`get_response` failure messages ("No response from service", with or
without the "within N seconds" suffix carrying the configured wait), and
the `assert_that` reasons of `compare_redeployed_response`
("Original status", "Redeployed status", "Same response"). -/
inductive TestFailure where
  | noResponse
  | noResponseWithin (seconds : Nat)
  | assertFailed (reason : String)
deriving DecidableEq

/-- Environment for `get_response`: whether the n-th `requests.get`
attempt returns a response (as opposed to raising), the response it
returns when it does, and the value of the n-th `time.monotonic()` call
(read 0 happens on entry; each failed attempt is followed by one further
read). The clock is monotone, as `time.monotonic` guarantees. -/
structure PollEnv where
  attemptOk : Nat → Bool
  response : Nat → HttpResponse
  clock : Nat → Nat
  mono : ∀ i j, i ≤ j → clock i ≤ clock j

/-- Outcome of `get_response`: either the response of the
`attempt`-th `requests.get` call (so `attempt + 1` attempts were made), or
an `AssertionError` after `attempts` failed attempts. -/
inductive PollResult where
  | success (attempt : Nat)
  | failure (err : TestFailure) (attempts : Nat)
deriving DecidableEq

/-- The `while True` loop of `RequestsHelper.get_response`: attempt `k`
either returns, or is followed by the `time.monotonic() >= deadline` check
on clock read `k + 1`, which breaks out to raise `fail_msg`. `fuel` bounds
the number of iterations modelled; `none` means the loop was still running
after `fuel` iterations. -/
def pollLoop (env : PollEnv) (failMsg : TestFailure) (deadline : Nat) :
    Nat → Nat → Option PollResult
  | _, 0 => none
  | k, fuel + 1 =>
    if env.attemptOk k then some (.success k)
    else if deadline ≤ env.clock (k + 1) then some (.failure failMsg (k + 1))
    else pollLoop env failMsg deadline (k + 1) fuel

/-- Model of `RequestsHelper.get_response(service_url, wait_for_connection)`:
`deadline` starts at `time.monotonic()`; if `wait_for_connection` is
`None` the failure message is "No response from service", otherwise the
message carries the wait and the deadline is pushed back by it; then the
retry loop runs. -/
def get_response (env : PollEnv) (wait_for_connection : Option Nat)
    (fuel : Nat) : Option PollResult :=
  match wait_for_connection with
  | none => pollLoop env TestFailure.noResponse (env.clock 0) 0 fuel
  | some seconds =>
    pollLoop env (TestFailure.noResponseWithin seconds) (env.clock 0 + seconds) 0 fuel

/-- C8: `get_response(url, None)` makes exactly one attempt: it returns
the first attempt's response when that attempt succeeds, and otherwise
fails at once with the plain "No response" message after that single
attempt, because the first deadline check `monotonic() >= deadline`
compares a later clock read against the entry read and so always breaks. -/
theorem c8_wait_none_single_attempt (env : PollEnv) (fuel : Nat)
    (hfuel : 1 ≤ fuel) :
    get_response env none fuel =
      some (if env.attemptOk 0 then PollResult.success 0
            else PollResult.failure TestFailure.noResponse 1) := by
  obtain ⟨f, rfl⟩ : ∃ f, fuel = f + 1 := ⟨fuel - 1, by omega⟩
  by_cases h : env.attemptOk 0
  · simp [get_response, pollLoop, h]
  · simp [get_response, pollLoop, h, env.mono 0 1 (by omega)]

/-- A service that never responds, over a clock that advances by one per
read. -/
def pollEnvDown : PollEnv where
  attemptOk := fun _ => false
  response := fun _ => ⟨200, "ok"⟩
  clock := fun n => n
  mono := fun _ _ hij => hij

/-- Witness for C8: a never-responding service makes `get_response`
with `wait_for_connection = None` fail after exactly one attempt. -/
theorem c8_wait_none_single_attempt_witness :
    get_response pollEnvDown none 5 =
      some (PollResult.failure TestFailure.noResponse 1) := by
  have h := c8_wait_none_single_attempt pollEnvDown 5 (by omega)
  simpa [pollEnvDown] using h

theorem pollLoop_failure_inv (env : PollEnv) (failMsg : TestFailure)
    (deadline : Nat) :
    ∀ (fuel k : Nat) (e : TestFailure) (n : Nat),
      pollLoop env failMsg deadline k fuel = some (.failure e n) →
      e = failMsg ∧ k < n ∧
      (∀ j, k ≤ j → j < n → env.attemptOk j = false) ∧
      deadline ≤ env.clock n ∧
      (∀ j, k < j → j < n → env.clock j < deadline) := by
  intro fuel
  induction fuel with
  | zero => intro k e n h; simp [pollLoop] at h
  | succ f ih =>
    intro k e n h
    rw [pollLoop] at h
    by_cases ha : env.attemptOk k
    · simp [ha] at h
    · rw [if_neg (by simp [ha])] at h
      by_cases hd : deadline ≤ env.clock (k + 1)
      · rw [if_pos hd] at h
        obtain ⟨he, hn⟩ : e = failMsg ∧ n = k + 1 := by
          have := Option.some.inj h
          cases this
          exact ⟨rfl, rfl⟩
        subst he; subst hn
        refine ⟨rfl, by omega, ?_, hd, ?_⟩
        · intro j hj1 hj2
          have : j = k := by omega
          subst this
          exact Bool.eq_false_iff.mpr ha
        · intro j hj1 hj2
          omega
      · rw [if_neg hd] at h
        obtain ⟨he, hkn, hfail, hclk, hbefore⟩ := ih (k + 1) e n h
        refine ⟨he, by omega, ?_, hclk, ?_⟩
        · intro j hj1 hj2
          rcases Nat.eq_or_lt_of_le hj1 with hj | hj
          · subst hj
            exact Bool.eq_false_iff.mpr ha
          · exact hfail j hj hj2
        · intro j hj1 hj2
          rcases Nat.eq_or_lt_of_le hj1 with hj | hj
          · rw [← hj]
            exact Nat.lt_of_not_le hd
          · exact hbefore j hj hj2

theorem pollLoop_first_success (env : PollEnv) (failMsg : TestFailure)
    (deadline : Nat) :
    ∀ (fuel k k2 : Nat), k ≤ k2 → env.attemptOk k2 = true →
      (∀ j, k ≤ j → j < k2 → env.attemptOk j = false) →
      (∀ j, k < j → j ≤ k2 → env.clock j < deadline) →
      k2 - k < fuel →
      pollLoop env failMsg deadline k fuel = some (.success k2) := by
  intro fuel
  induction fuel with
  | zero => intro k k2 _ _ _ _ hfuel; omega
  | succ f ih =>
    intro k k2 hle hok hfail hclk hfuel
    rcases Nat.eq_or_lt_of_le hle with heq | hlt
    · subst heq
      rw [pollLoop, if_pos hok]
    · have hka : env.attemptOk k = false := hfail k le_rfl hlt
      have hkc : env.clock (k + 1) < deadline := hclk (k + 1) (by omega) (by omega)
      rw [pollLoop, if_neg (by simp [hka]), if_neg (by omega)]
      exact ih (k + 1) k2 (by omega) hok
        (fun j hj1 hj2 => hfail j (by omega) hj2)
        (fun j hj1 hj2 => hclk j (by omega) hj2)
        (by omega)

/-- C7: `get_response(url, T)` (a) when it fails, fails with the
"no response within T seconds" message after at least one attempt, with
every attempt having failed, the final deadline check at or past
`clock 0 + T`, and every earlier check strictly before the deadline (so it
neither gives up before the deadline nor retries past it); and (b) when
attempt `k` is the first to succeed and every check before it is still
under the deadline, it returns that first successful response. -/
theorem c7_wait_bounded_retry (env : PollEnv) (seconds fuel : Nat) :
    (∀ (e : TestFailure) (n : Nat),
      get_response env (some seconds) fuel = some (.failure e n) →
      e = TestFailure.noResponseWithin seconds ∧ 1 ≤ n ∧
      (∀ j, j < n → env.attemptOk j = false) ∧
      env.clock 0 + seconds ≤ env.clock n ∧
      (∀ j, 1 ≤ j → j < n → env.clock j < env.clock 0 + seconds)) ∧
    (∀ k, env.attemptOk k = true →
      (∀ j, j < k → env.attemptOk j = false) →
      (∀ j, 1 ≤ j → j ≤ k → env.clock j < env.clock 0 + seconds) →
      k < fuel →
      get_response env (some seconds) fuel = some (.success k)) := by
  constructor
  · intro e n h
    obtain ⟨he, hn, hfail, hclk, hbefore⟩ :=
      pollLoop_failure_inv env (TestFailure.noResponseWithin seconds)
        (env.clock 0 + seconds) fuel 0 e n h
    exact ⟨he, by omega, fun j hj => hfail j (by omega) hj, hclk,
      fun j hj1 hj2 => hbefore j (by omega) hj2⟩
  · intro k hok hfail hclk hfuel
    exact pollLoop_first_success env (TestFailure.noResponseWithin seconds)
      (env.clock 0 + seconds) fuel 0 k (by omega) hok
      (fun j _ hj2 => hfail j hj2)
      (fun j hj1 hj2 => hclk j (by omega) hj2)
      (by omega)

/-- Witness for C7: the never-responding service under the unit-step clock
with `T = 3`: the loop fails and the theorem yields the deadline bound for
its final clock check (clock read 3, at the deadline `0 + 3`). -/
theorem c7_wait_bounded_retry_witness :
    pollEnvDown.clock 0 + 3 ≤ pollEnvDown.clock 3 :=
  ((c7_wait_bounded_retry pollEnvDown 3 10).1
    (TestFailure.noResponseWithin 3) 3 rfl).2.2.2.1

/-- Model of `RequestsHelper.compare_redeployed_response`: fetch the original URL
with no wait tolerance, assert its status equals the expected `status`
(reason "Original status"), fetch the redeployed URL with
`wait_for_target` tolerance, assert the redeployed status equals the
*observed original* status (reason "Redeployed status"), then assert the
body texts are equal (reason "Same response"). The two fetches are given
their own environments (they target different URLs); a `get_response`
failure propagates its own `AssertionError`. -/
def compare_redeployed_response (envO envR : PollEnv) (status : Nat)
    (wait_for_target : Option Nat) (fuel : Nat) :
    Option (Except TestFailure Unit) :=
  match get_response envO none fuel with
  | none => none
  | some (.failure e _) => some (.error e)
  | some (.success k) =>
    let original_response := envO.response k
    if original_response.status_code = status then
      match get_response envR wait_for_target fuel with
      | none => none
      | some (.failure e _) => some (.error e)
      | some (.success j) =>
        let redeployed_response := envR.response j
        if redeployed_response.status_code = original_response.status_code then
          if redeployed_response.text = original_response.text then
            some (.ok ())
          else some (.error (.assertFailed "Same response"))
        else some (.error (.assertFailed "Redeployed status"))
    else some (.error (.assertFailed "Original status"))

/-- C9: when both addresses respond, the original status equals the
expected one and the redeployed status matches it, the comparison succeeds
when the bodies agree and fails with the body-mismatch assertion
("Same response", not the status-mismatch "Redeployed status") when they
differ; and when the original status check already fails, the comparison
aborts with "Original status" regardless of the redeployed side — the
checks run in their fixed order and the first mismatch aborts. -/
theorem c9_compare_check_order (envO envR : PollEnv) (status : Nat)
    (wait_for_target : Option Nat) (fuel k : Nat)
    (hO : get_response envO none fuel = some (.success k)) :
    ((envO.response k).status_code = status →
      ∀ j, get_response envR wait_for_target fuel = some (.success j) →
        (envR.response j).status_code = (envO.response k).status_code →
        (((envR.response j).text = (envO.response k).text →
            compare_redeployed_response envO envR status wait_for_target fuel =
              some (.ok ())) ∧
         ((envR.response j).text ≠ (envO.response k).text →
            compare_redeployed_response envO envR status wait_for_target fuel =
              some (.error (.assertFailed "Same response"))))) ∧
    ((envO.response k).status_code ≠ status →
      compare_redeployed_response envO envR status wait_for_target fuel =
        some (.error (.assertFailed "Original status"))) := by
  constructor
  · intro hstat j hR hstat2
    constructor
    · intro htext
      simp [compare_redeployed_response, hO, hR, hstat, hstat2, htext]
    · intro htext
      simp [compare_redeployed_response, hO, hR, hstat, hstat2, htext]
  · intro hstat
    simp [compare_redeployed_response, hO, hstat]

/-- A service whose every attempt returns status 200 with body "hello". -/
def pollEnvHello : PollEnv where
  attemptOk := fun _ => true
  response := fun _ => ⟨200, "hello"⟩
  clock := fun n => n
  mono := fun _ _ hij => hij

/-- Witness for C9: identical status 200 and identical body on both sides
make the comparison succeed. -/
theorem c9_compare_check_order_witness :
    compare_redeployed_response pollEnvHello pollEnvHello 200 none 1 =
      some (.ok ()) :=
  (((c9_compare_check_order pollEnvHello pollEnvHello 200 none 1 0 rfl).1
    rfl 0 rfl rfl).1) rfl

/-! ## Local VM management (`VirtualMachineHelper`) -/

/-- The three vagrant subcommands the helper issues. -/
inductive VagrantCmd where
  | up
  | halt
  | destroy
deriving DecidableEq

/-- One vagrant invocation as observed at the subprocess boundary:
the subcommand, the logical machine name the helper method was acting on
(the `name` argument of `_vm_up`/`_vm_halt`/`_vm_destroy`), and the
backing hostname passed to `_run_vagrant`. -/
structure Call where
  cmd : VagrantCmd
  vm_name : String
  hostname : String
deriving DecidableEq

/-- Environment for command execution: whether a given vagrant
invocation exits with status 0. -/
structure Env where
  vagrant : VagrantCmd → String → Bool

/-- Model of `_run_command` (as used through `_run_vagrant`): a failing command
either has its error swallowed (`ignore_errors=True`, the captured output
is returned) or raises `CalledProcessError`. -/
def _run_command (env : Env) (cmd : VagrantCmd) (hostname : String)
    (ignore_errors : Bool) : Except Err Unit :=
  if env.vagrant cmd hostname then .ok ()
  else if ignore_errors then .ok ()
  else .error Err.commandFailed

/-- The `self._machines` dict: logical name to backing hostname. -/
abbrev Machines := List (String × String)

/-- Model of `self._machines[name]` lookup. -/
def lookupA : Machines → String → Option String
  | [], _ => none
  | p :: rest, k => if p.1 = k then some p.2 else lookupA rest k

/-- Removal of a key, as done by `dict.pop`. -/
def eraseA : Machines → String → Machines
  | [], _ => []
  | p :: rest, k => if p.1 = k then eraseA rest k else p :: eraseA rest k

/-- Model of `self._machines[name] = hostname` (dict assignment overwrites). -/
def insertA (m : Machines) (k v : String) : Machines := (k, v) :: eraseA m k

/-- Model of `self._machines.pop(name)`: the value plus the shrunk dict, or
`None` standing for the `KeyError` the one-argument `pop` raises. -/
def popA (m : Machines) (k : String) : Option (String × Machines) :=
  (lookupA m k).map (fun v => (v, eraseA m k))

/-- A callback registered on the helper's `contextlib.ExitStack`
(`self._resource_manager.callback(self._vm_halt, name)` or the same with
`self._vm_destroy`). -/
inductive TeardownAction where
  | haltA (vm_name : String)
  | destroyA (vm_name : String)
deriving DecidableEq

/-- The logical name a teardown callback is bound to. -/
def TeardownAction.vmName : TeardownAction → String
  | .haltA n => n
  | .destroyA n => n

/-- The vagrant subcommand a teardown callback will issue. -/
def TeardownAction.cmd : TeardownAction → VagrantCmd
  | .haltA _ => VagrantCmd.halt
  | .destroyA _ => VagrantCmd.destroy

/-- A `contextlib.ExitStack` of teardown callbacks; the head of
`callbacks` is the most recently registered one, and `close` runs the
callbacks head first (last registered, first run). -/
structure ExitStack where
  callbacks : List TeardownAction
deriving DecidableEq

/-- A freshly constructed `contextlib.ExitStack()`. -/
def ExitStack.init : ExitStack := ⟨[]⟩

/-- Model of `stack.callback(f, name)`: registers one more teardown callback. -/
def ExitStack.callback (stack : ExitStack) (cb : TeardownAction) : ExitStack :=
  ⟨cb :: stack.callbacks⟩

/-- Model of `VirtualMachineHelper`: the `_machines` dict plus the
`_resource_manager` exit stack. -/
structure VirtualMachineHelper where
  machines : Machines
  resource_manager : ExitStack
deriving DecidableEq

/-- Model of `VirtualMachineHelper.__init__`. -/
def VirtualMachineHelper.start : VirtualMachineHelper := ⟨[], ExitStack.init⟩

/-- Model of `_vm_up(name, hostname)`: runs `vagrant up` (errors NOT ignored, so a
non-zero exit raises), then records `self._machines[name] = hostname`. -/
def _vm_up (env : Env) (vm_name hostname : String) (m : Machines) :
    Machines × List Call × Option Err :=
  match _run_command env VagrantCmd.up hostname false with
  | .ok _ => (insertA m vm_name hostname, [⟨VagrantCmd.up, vm_name, hostname⟩], none)
  | .error e => (m, [⟨VagrantCmd.up, vm_name, hostname⟩], some e)

/-- Model of `_vm_halt(name)`: `hostname = self._machines.pop(name)` (raising
`KeyError` when `name` is absent), then `vagrant halt` with
`ignore_errors=True`. -/
def _vm_halt (env : Env) (vm_name : String) (m : Machines) :
    Machines × List Call × Option Err :=
  match popA m vm_name with
  | none => (m, [], some Err.keyError)
  | some (hostname, m2) =>
    match _run_command env VagrantCmd.halt hostname true with
    | .ok _ => (m2, [⟨VagrantCmd.halt, vm_name, hostname⟩], none)
    | .error e => (m2, [⟨VagrantCmd.halt, vm_name, hostname⟩], some e)

/-- Model of `_vm_destroy(name)`: `hostname = self._machines.pop(name)` (raising
`KeyError` when `name` is absent), then `vagrant destroy` with
`ignore_errors=True`. -/
def _vm_destroy (env : Env) (vm_name : String) (m : Machines) :
    Machines × List Call × Option Err :=
  match popA m vm_name with
  | none => (m, [], some Err.keyError)
  | some (hostname, m2) =>
    match _run_command env VagrantCmd.destroy hostname true with
    | .ok _ => (m2, [⟨VagrantCmd.destroy, vm_name, hostname⟩], none)
    | .error e => (m2, [⟨VagrantCmd.destroy, vm_name, hostname⟩], some e)

/-- Dispatch of a registered `ExitStack` callback. -/
def runTeardown (env : Env) (cb : TeardownAction) (m : Machines) :
    Machines × List Call × Option Err :=
  match cb with
  | .haltA vm_name => _vm_halt env vm_name m
  | .destroyA vm_name => _vm_destroy env vm_name m

/-- Model of `ExitStack` unwinding: callbacks run last-registered-first, and a
callback that raises does not stop the remaining callbacks from running
(the stack collects the raised errors; `close` re-raises after the unwind
when this list is non-empty). -/
def unwindAll (env : Env) : List TeardownAction → Machines →
    Machines × List Call × List Err
  | [], m => (m, [], [])
  | cb :: rest, m =>
    let r1 := runTeardown env cb m
    let r2 := unwindAll env rest r1.1
    (r2.1, r1.2.1 ++ r2.2.1, r1.2.2.toList ++ r2.2.2)

/-- Model of `VirtualMachineHelper.close()`: `self._resource_manager.close()` —
unwinds all registered callbacks and leaves the stack empty. Returns the
updated helper, the list of callbacks that were attempted (in execution
order), the vagrant calls made, and the errors raised by callbacks. -/
def VirtualMachineHelper.close (env : Env) (h : VirtualMachineHelper) :
    VirtualMachineHelper × List TeardownAction × List Call × List Err :=
  let r := unwindAll env h.resource_manager.callbacks h.machines
  (⟨r.1, ExitStack.init⟩, h.resource_manager.callbacks, r.2.1, r.2.2)

/-- The hostname of a VM definition: the fixed `_VM_HOSTNAME_PREFIX`
(`"leapp-tests-"`) plus the definition directory name. -/
def vmHostname (definition : String) : String := "leapp-tests-" ++ definition

/-- The hostnames of `_VM_DEFS`, built from the list of definition
directories under `integration-tests/vmdefs`. -/
def hostnamesOf (defs : List String) : List String := defs.map vmHostname

/-- Model of `ensure_local_vm(name, definition, destroy)`: resolve the hostname and
check it against `_VM_DEFS` (`ValueError` otherwise); when `destroy` is
requested, first call `self._vm_destroy(hostname)` — note the *hostname*
is passed where `_vm_destroy` pops a logical *name*; then `_vm_up(name,
hostname)`; finally register the matching teardown callback (destroy-on-
close when `destroy` was requested, halt-on-close otherwise). -/
def ensure_local_vm (env : Env) (defs : List String)
    (vm_name definition : String) (destroy : Bool)
    (h : VirtualMachineHelper) :
    VirtualMachineHelper × List Call × Option Err :=
  let hostname := vmHostname definition
  if (hostnamesOf defs).contains hostname then
    match (if destroy then _vm_destroy env hostname h.machines
           else (h.machines, [], none)) with
    | (m1, cs1, some e) => ({h with machines := m1}, cs1, some e)
    | (m1, cs1, none) =>
      match _vm_up env vm_name hostname m1 with
      | (m2, cs2, some e) => ({h with machines := m2}, cs1 ++ cs2, some e)
      | (m2, cs2, none) =>
        ({machines := m2,
          resource_manager := h.resource_manager.callback
            (if destroy then TeardownAction.destroyA vm_name
             else TeardownAction.haltA vm_name)},
         cs1 ++ cs2, none)
  else (h, [], some Err.valueError)

/-- Model of `get_hostname(name)`: `self._machines[name]`, raising `KeyError` for
a name that was never acquired or has been released. -/
def get_hostname (h : VirtualMachineHelper) (vm_name : String) :
    Except Err String :=
  match lookupA h.machines vm_name with
  | none => .error Err.keyError
  | some hostname => .ok hostname

/-- An environment in which every vagrant command succeeds. -/
def envAllOk : Env := ⟨fun _ _ => true⟩

/-- An environment in which every vagrant command exits non-zero. -/
def envAllFail : Env := ⟨fun _ _ => false⟩

/-- C1: on a fresh registry, `ensure_local_vm` with `destroy=True` for a
known definition does NOT succeed: `self._vm_destroy(hostname)` executes
`self._machines.pop(hostname)` on an empty dict and raises `KeyError`
before any vagrant command runs — destroy-of-nonexistent is not
tolerated, contrary to the claim (and to the function's own docstring;
the `ignore_errors=True` of `_vm_destroy` only covers the vagrant
command, not the dict pop). -/
theorem c1_destroy_fresh_keyerror :
    ensure_local_vm envAllOk ["centos7"] "testvm" "centos7" true
        VirtualMachineHelper.start =
      (VirtualMachineHelper.start, [], some Err.keyError) := by
  rfl

theorem foldl_callback_callbacks :
    ∀ (cbs : List TeardownAction) (stack : ExitStack),
      (cbs.foldl ExitStack.callback stack).callbacks =
        cbs.reverse ++ stack.callbacks := by
  intro cbs
  induction cbs with
  | nil => intro stack; simp
  | cons cb rest ih =>
    intro stack
    simp [List.foldl_cons, ih, ExitStack.callback]

/-- C3: registering `N` callbacks in order on a fresh exit stack and then
closing the helper attempts exactly those `N` actions in reverse order of
registration; the stack is cleared by the unwind, so a second close
attempts no action, makes no vagrant call and raises nothing. -/
theorem c3_unwind_reverse_then_empty (env : Env) (m : Machines)
    (cbs : List TeardownAction) :
    (VirtualMachineHelper.close env
        ⟨m, cbs.foldl ExitStack.callback ExitStack.init⟩).2.1 = cbs.reverse ∧
    (VirtualMachineHelper.close env
        (VirtualMachineHelper.close env
          ⟨m, cbs.foldl ExitStack.callback ExitStack.init⟩).1).2.1 = [] ∧
    (VirtualMachineHelper.close env
        (VirtualMachineHelper.close env
          ⟨m, cbs.foldl ExitStack.callback ExitStack.init⟩).1).2.2.1 = [] ∧
    (VirtualMachineHelper.close env
        (VirtualMachineHelper.close env
          ⟨m, cbs.foldl ExitStack.callback ExitStack.init⟩).1).2.2.2 = [] := by
  refine ⟨?_, ?_, ?_, ?_⟩ <;>
    simp [VirtualMachineHelper.close, foldl_callback_callbacks, ExitStack.init,
      unwindAll]

theorem unwindAll_append (env : Env) :
    ∀ (part1 part2 : List TeardownAction) (m : Machines),
      unwindAll env (part1 ++ part2) m =
        ((unwindAll env part2 (unwindAll env part1 m).1).1,
         (unwindAll env part1 m).2.1 ++
           (unwindAll env part2 (unwindAll env part1 m).1).2.1,
         (unwindAll env part1 m).2.2 ++
           (unwindAll env part2 (unwindAll env part1 m).1).2.2) := by
  intro part1
  induction part1 with
  | nil => intro part2 m; simp [unwindAll]
  | cons cb rest ih =>
    intro part2 m
    simp [unwindAll, ih]

theorem lookupA_eraseA_ne :
    ∀ (m : Machines) (k k2 : String), k ≠ k2 →
      lookupA (eraseA m k2) k = lookupA m k := by
  intro m
  induction m with
  | nil => intro k k2 _; rfl
  | cons p rest ih =>
    intro k k2 hne
    by_cases h1 : p.1 = k2
    · have h2 : p.1 ≠ k := by rw [h1]; exact Ne.symm hne
      simp [eraseA, lookupA, h1, h2, Ne.symm hne, ih k k2 hne]
    · by_cases h2 : p.1 = k
      · simp [eraseA, lookupA, h1, h2, hne]
      · simp [eraseA, lookupA, h1, h2, ih k k2 hne]

/-- A halt/destroy teardown callback never surfaces a command error: the
vagrant invocation runs with `ignore_errors=True`, so the only possible
error is the registry `KeyError`, which cannot happen when the callback's
name is present. -/
theorem runTeardown_suppresses (env : Env) (cb : TeardownAction)
    (m : Machines) (hmem : (lookupA m cb.vmName).isSome = true) :
    (runTeardown env cb m).2.2 = none ∧
    (runTeardown env cb m).1 = eraseA m cb.vmName := by
  obtain ⟨hostname, hlook⟩ : ∃ v, lookupA m cb.vmName = some v :=
    Option.isSome_iff_exists.mp hmem
  cases cb with
  | haltA vm_name =>
    have : popA m vm_name = some (hostname, eraseA m vm_name) := by
      simp [popA, lookupA] at hlook ⊢
      simp [TeardownAction.vmName] at hlook
      simp [hlook]
    constructor <;>
      simp [runTeardown, _vm_halt, this, _run_command, TeardownAction.vmName]
  | destroyA vm_name =>
    have : popA m vm_name = some (hostname, eraseA m vm_name) := by
      simp [popA, lookupA] at hlook ⊢
      simp [TeardownAction.vmName] at hlook
      simp [hlook]
    constructor <;>
      simp [runTeardown, _vm_destroy, this, _run_command, TeardownAction.vmName]

theorem unwindAll_suppresses (env : Env) :
    ∀ (cbs : List TeardownAction) (m : Machines),
      (cbs.map TeardownAction.vmName).Nodup →
      (∀ cb ∈ cbs, (lookupA m cb.vmName).isSome = true) →
      (unwindAll env cbs m).2.2 = [] := by
  intro cbs
  induction cbs with
  | nil => intro m _ _; rfl
  | cons cb rest ih =>
    intro m hnodup hmem
    obtain ⟨herr, hmach⟩ :=
      runTeardown_suppresses env cb m (hmem cb (List.mem_cons_self _ _))
    have hrest : ∀ cb2 ∈ rest, (lookupA (runTeardown env cb m).1 cb2.vmName).isSome = true := by
      intro cb2 hcb2
      rw [hmach, lookupA_eraseA_ne]
      · exact hmem cb2 (List.mem_cons_of_mem _ hcb2)
      · intro heq
        have : cb.vmName ∈ rest.map TeardownAction.vmName :=
          heq ▸ List.mem_map_of_mem TeardownAction.vmName hcb2
        exact (List.nodup_cons.mp hnodup).1 this
    have := ih (runTeardown env cb m).1 (List.nodup_cons.mp hnodup).2 hrest
    simp [unwindAll, herr, this]

/-- C4: (a) unwinding a stack split as `part1 ++ part2` always runs
`part2` in full after `part1`, appending its calls and errors, whatever
errors `part1`'s actions raise — no early abort; (b) when the registered
callbacks' names are distinct and all present in the machine registry,
the unwind raises nothing at all, for *every* command environment — in
particular even when every vagrant halt/destroy exits non-zero, because
teardown commands run with `ignore_errors=True` (failures are only
logged). -/
theorem c4_unwind_no_abort_and_suppression (env : Env) (m m2 : Machines)
    (part1 part2 cbs : List TeardownAction)
    (hnodup : (cbs.map TeardownAction.vmName).Nodup)
    (hmem : ∀ cb ∈ cbs, (lookupA m2 cb.vmName).isSome = true) :
    (unwindAll env (part1 ++ part2) m =
      ((unwindAll env part2 (unwindAll env part1 m).1).1,
       (unwindAll env part1 m).2.1 ++
         (unwindAll env part2 (unwindAll env part1 m).1).2.1,
       (unwindAll env part1 m).2.2 ++
         (unwindAll env part2 (unwindAll env part1 m).1).2.2)) ∧
    (unwindAll env cbs m2).2.2 = [] :=
  ⟨unwindAll_append env part1 part2 m, unwindAll_suppresses env cbs m2 hnodup hmem⟩

/-- Witness for C4: a stack whose first callback fails with `KeyError`
("ghost" is not registered) still halts "web1" and destroys "web2", and a
fully-registered stack unwinds with no error even though every vagrant
command fails (`envAllFail`). -/
theorem c4_unwind_no_abort_and_suppression_witness :
    (unwindAll envAllFail
        ([TeardownAction.haltA "ghost"] ++ [TeardownAction.haltA "web1", TeardownAction.destroyA "web2"])
        [("web1", "leapp-tests-w1"), ("web2", "leapp-tests-w2")] =
      ((unwindAll envAllFail [TeardownAction.haltA "web1", TeardownAction.destroyA "web2"]
          (unwindAll envAllFail [TeardownAction.haltA "ghost"]
            [("web1", "leapp-tests-w1"), ("web2", "leapp-tests-w2")]).1).1,
       (unwindAll envAllFail [TeardownAction.haltA "ghost"]
          [("web1", "leapp-tests-w1"), ("web2", "leapp-tests-w2")]).2.1 ++
         (unwindAll envAllFail [TeardownAction.haltA "web1", TeardownAction.destroyA "web2"]
            (unwindAll envAllFail [TeardownAction.haltA "ghost"]
              [("web1", "leapp-tests-w1"), ("web2", "leapp-tests-w2")]).1).2.1,
       (unwindAll envAllFail [TeardownAction.haltA "ghost"]
          [("web1", "leapp-tests-w1"), ("web2", "leapp-tests-w2")]).2.2 ++
         (unwindAll envAllFail [TeardownAction.haltA "web1", TeardownAction.destroyA "web2"]
            (unwindAll envAllFail [TeardownAction.haltA "ghost"]
              [("web1", "leapp-tests-w1"), ("web2", "leapp-tests-w2")]).1).2.2)) ∧
    (unwindAll envAllFail [TeardownAction.haltA "web1", TeardownAction.destroyA "web2"]
        [("web1", "leapp-tests-w1"), ("web2", "leapp-tests-w2")]).2.2 = [] :=
  c4_unwind_no_abort_and_suppression envAllFail
    [("web1", "leapp-tests-w1"), ("web2", "leapp-tests-w2")]
    [("web1", "leapp-tests-w1"), ("web2", "leapp-tests-w2")]
    [TeardownAction.haltA "ghost"]
    [TeardownAction.haltA "web1", TeardownAction.destroyA "web2"]
    [TeardownAction.haltA "web1", TeardownAction.destroyA "web2"]
    (by decide) (by decide)

/-! ## Scenarios: registry operations driven by test steps, and the
behave hooks -/

/-- The registry operations a scenario's steps perform on its
`VirtualMachineHelper` (the operations named by the spec's registry
contract): `ensure_local_vm`, `get_hostname`, and an eager
`vm_helper.close()`. -/
inductive Step where
  | ensure (vm_name definition : String) (destroy : Bool)
  | gethost (vm_name : String)
  | closeAll
deriving DecidableEq

/-- Execution of one scenario step against the helper. -/
def runStep (env : Env) (defs : List String) (st : Step)
    (h : VirtualMachineHelper) : VirtualMachineHelper × List Call × Option Err :=
  match st with
  | .ensure vm_name definition destroy =>
    ensure_local_vm env defs vm_name definition destroy h
  | .gethost vm_name =>
    match get_hostname h vm_name with
    | .error e => (h, [], some e)
    | .ok _ => (h, [], none)
  | .closeAll =>
    let r := VirtualMachineHelper.close env h
    (r.1, r.2.2.1, r.2.2.2.head?)

/-- Execution of a scenario's steps in order; a step that raises aborts
the remaining steps (behave skips the rest of a failing scenario), and
the state at the failure is kept for the hooks to clean up. -/
def runSteps (env : Env) (defs : List String) :
    List Step → VirtualMachineHelper →
      VirtualMachineHelper × List Call × Option Err
  | [], h => (h, [], none)
  | st :: rest, h =>
    match runStep env defs st h with
    | (h1, cs1, some e) => (h1, cs1, some e)
    | (h1, cs1, none) =>
      let r := runSteps env defs rest h1
      (r.1, cs1 ++ r.2.1, r.2.2)

/-- A callback registered on one of the hook-managed cleanup stacks; the
only one the hooks register is `vm_helper.close`. -/
inductive CleanupCb where
  | vmHelperClose
deriving DecidableEq

/-- Running one cleanup-stack callback. -/
def runCleanupCb (env : Env) (cb : CleanupCb) (h : VirtualMachineHelper) :
    VirtualMachineHelper × List Call × List Err :=
  match cb with
  | .vmHelperClose =>
    let r := VirtualMachineHelper.close env h
    (r.1, r.2.2.1, r.2.2.2)

/-- Closing a hook-managed `contextlib.ExitStack` of cleanup callbacks. -/
def runCleanupStack (env : Env) : List CleanupCb → VirtualMachineHelper →
    VirtualMachineHelper × List Call × List Err
  | [], h => (h, [], [])
  | cb :: rest, h =>
    let r1 := runCleanupCb env cb h
    let r2 := runCleanupStack env rest r1.1
    (r2.1, r1.2.1 ++ r2.2.1, r1.2.2 ++ r2.2.2)

/-- The behave `context`: the process-wide `_global_cleanup` stack, the
per-scenario `scenario_cleanup` stack, and the scenario's
`vm_helper`. -/
structure Context where
  global_cleanup : List CleanupCb
  scenario_cleanup : List CleanupCb
  vm_helper : VirtualMachineHelper
deriving DecidableEq

/-- Model of `before_all(context)`: creates the empty process-wide cleanup stack
(the elevation check is outside the model; the helper field is a
placeholder until the scenario hook creates the real one). -/
def before_all : Context := ⟨[], [], VirtualMachineHelper.start⟩

/-- Model of `before_scenario(context, scenario)`: fresh per-scenario cleanup
stack, fresh `VirtualMachineHelper`, and — deliberately, because VMs are
slow to start/stop — `vm_helper.close` is registered on the *process-wide*
`_global_cleanup` stack, not on the per-scenario stack. -/
def before_scenario_hook (ctx : Context) : Context :=
  { global_cleanup := CleanupCb.vmHelperClose :: ctx.global_cleanup
    scenario_cleanup := []
    vm_helper := VirtualMachineHelper.start }

/-- Model of `after_scenario(context, scenario)`: `context.scenario_cleanup.close()`. -/
def after_scenario_hook (env : Env) (ctx : Context) :
    Context × List Call × List Err :=
  let r := runCleanupStack env ctx.scenario_cleanup ctx.vm_helper
  ({ctx with scenario_cleanup := [], vm_helper := r.1}, r.2.1, r.2.2)

/-- Model of `after_all(context)`: `context._global_cleanup.close()`. -/
def after_all_hook (env : Env) (ctx : Context) :
    Context × List Call × List Err :=
  let r := runCleanupStack env ctx.global_cleanup ctx.vm_helper
  ({ctx with global_cleanup := [], vm_helper := r.1}, r.2.1, r.2.2)

/-- The context as it stands when a scenario's steps have run: the
scenario hook has fired on a fresh run context and the steps have acted
on the scenario's helper. -/
def scenarioRun (env : Env) (defs : List String) (steps : List Step) :
    Context :=
  {before_scenario_hook before_all with
    vm_helper :=
      (runSteps env defs steps (before_scenario_hook before_all).vm_helper).1}

/-! Supporting lemmas about the registry map and the callback stack. -/

theorem lookupA_insertA_ne (m : Machines) (k v n : String) (hne : n ≠ k) :
    lookupA (insertA m k v) n = lookupA m n := by
  have h1 : ¬(k = n) := Ne.symm hne
  simp [insertA, lookupA, h1, lookupA_eraseA_ne m n k hne]

theorem lookupA_insertA_self (m : Machines) (k v : String) :
    lookupA (insertA m k v) k = some v := by
  simp [insertA, lookupA]

/-- The callbacks registered for a given logical name, in stack order. -/
def cbsFor (n : String) (cbs : List TeardownAction) : List TeardownAction :=
  cbs.filter (fun cb => cb.vmName == n)

theorem cbsFor_nil (n : String) : cbsFor n [] = [] := rfl

theorem cbsFor_cons (n : String) (cb : TeardownAction)
    (cbs : List TeardownAction) :
    cbsFor n (cb :: cbs) =
      if cb.vmName = n then cb :: cbsFor n cbs else cbsFor n cbs := by
  by_cases hself : cb.vmName = n <;> simp [cbsFor, hself]

/-- A logical name shorter than the 12-character `"leapp-tests-"` VM
hostname prefix can never collide with a backing hostname. -/
theorem short_ne_vmHostname (n : String) (hshort : n.length < 12)
    (d : String) : n ≠ vmHostname d := by
  intro heq
  have h2 := congrArg String.length heq
  rw [vmHostname, String.length_append] at h2
  have h3 : ("leapp-tests-" : String).length = 12 := by decide
  omega

theorem _vm_destroy_machines (env : Env) (k : String) (m : Machines) :
    (_vm_destroy env k m).1 = if (lookupA m k).isSome then eraseA m k else m := by
  rcases hl : lookupA m k with _ | v
  · simp [_vm_destroy, popA, hl]
  · rcases henv : _run_command env VagrantCmd.destroy v true with _ | e <;>
      simp [_vm_destroy, popA, hl, henv]

theorem _vm_up_machines (env : Env) (vm_name hostname : String)
    (m : Machines) :
    (_vm_up env vm_name hostname m).1 =
      if env.vagrant VagrantCmd.up hostname then insertA m vm_name hostname
      else m := by
  by_cases henv : env.vagrant VagrantCmd.up hostname <;>
    simp [_vm_up, _run_command, henv]

/-- Running `ensure_local_vm` for one name leaves another (prefix-free) name's
registry entry and registered callbacks untouched, whether it succeeds or
raises. -/
theorem ensure_preserves (env : Env) (defs : List String)
    (vm_name d : String) (destroy : Bool) (h : VirtualMachineHelper)
    (n : String) (hhost : n ≠ vmHostname d) (hne : vm_name ≠ n) :
    lookupA (ensure_local_vm env defs vm_name d destroy h).1.machines n =
      lookupA h.machines n ∧
    cbsFor n
        (ensure_local_vm env defs vm_name d destroy h).1.resource_manager.callbacks =
      cbsFor n h.resource_manager.callbacks := by
  by_cases hc : vmHostname d ∈ hostnamesOf defs
  · cases destroy with
    | false =>
      by_cases hup : env.vagrant VagrantCmd.up (vmHostname d)
      · constructor <;>
          simp [ensure_local_vm, hc, _vm_up, _run_command, hup,
            lookupA_insertA_ne _ _ _ _ (Ne.symm hne),
            cbsFor_cons, TeardownAction.vmName, hne,
            ExitStack.callback]
      · constructor <;>
          simp [ensure_local_vm, hc, _vm_up, _run_command, hup]
    | true =>
      rcases hl : lookupA h.machines (vmHostname d) with _ | v
      · constructor <;>
          simp [ensure_local_vm, hc, _vm_destroy, popA, hl]
      · by_cases hup : env.vagrant VagrantCmd.up (vmHostname d)
        · constructor <;>
            simp [ensure_local_vm, hc, _vm_destroy, popA, hl, _vm_up,
              _run_command, hup,
              lookupA_insertA_ne _ _ _ _ (Ne.symm hne),
              lookupA_eraseA_ne _ n _ hhost,
              cbsFor_cons, TeardownAction.vmName, hne,
              ExitStack.callback]
        · constructor <;>
            simp [ensure_local_vm, hc, _vm_destroy, popA, hl, _vm_up,
              _run_command, hup, lookupA_eraseA_ne _ n _ hhost]
  · constructor <;> simp [ensure_local_vm, hc]

/-- A successful `ensure_local_vm` maps the name to the resolved hostname
and pushes exactly one matching teardown callback (destroy-on-close when
`destroy` was requested, halt-on-close otherwise). -/
theorem ensure_self (env : Env) (defs : List String) (n d : String)
    (destroy : Bool) (h : VirtualMachineHelper)
    (hok : (ensure_local_vm env defs n d destroy h).2.2 = none) :
    lookupA (ensure_local_vm env defs n d destroy h).1.machines n =
      some (vmHostname d) ∧
    cbsFor n
        (ensure_local_vm env defs n d destroy h).1.resource_manager.callbacks =
      (if destroy then TeardownAction.destroyA n else TeardownAction.haltA n) ::
        cbsFor n h.resource_manager.callbacks := by
  by_cases hc : vmHostname d ∈ hostnamesOf defs
  · cases destroy with
    | false =>
      by_cases hup : env.vagrant VagrantCmd.up (vmHostname d)
      · constructor <;>
          simp [ensure_local_vm, hc, _vm_up, _run_command, hup,
            lookupA_insertA_self, cbsFor_cons, TeardownAction.vmName,
            ExitStack.callback]
      · exact absurd hok (by simp [ensure_local_vm, hc, _vm_up, _run_command, hup])
    | true =>
      rcases hl : lookupA h.machines (vmHostname d) with _ | v
      · exact absurd hok (by simp [ensure_local_vm, hc, _vm_destroy, popA, hl])
      · by_cases hup : env.vagrant VagrantCmd.up (vmHostname d)
        · constructor <;>
            simp [ensure_local_vm, hc, _vm_destroy, popA, hl, _vm_up,
              _run_command, hup, lookupA_insertA_self,
              cbsFor_cons, TeardownAction.vmName,
              ExitStack.callback]
        · exact absurd hok
            (by simp [ensure_local_vm, hc, _vm_destroy, popA, hl, _vm_up,
              _run_command, hup])
  · exact absurd hok (by simp [ensure_local_vm, hc])

/-- Whether a step is an `ensure_local_vm` call for the given name. -/
def isEnsureOf (n : String) : Step → Bool
  | .ensure vm_name _ _ => vm_name == n
  | _ => false

/-- The `ensure_local_vm` steps of a scenario that acquire a given
name. -/
def ensureStepsFor (n : String) (steps : List Step) : List Step :=
  steps.filter (isEnsureOf n)

/-- A step that is neither an acquisition of `n` nor an eager close
leaves `n`'s registry entry and callbacks untouched. -/
theorem runStep_preserves (env : Env) (defs : List String) (st : Step)
    (h : VirtualMachineHelper) (n : String)
    (hhost : ∀ d2, n ≠ vmHostname d2)
    (hnot : isEnsureOf n st = false) (hnc : st ≠ Step.closeAll) :
    lookupA (runStep env defs st h).1.machines n = lookupA h.machines n ∧
    cbsFor n (runStep env defs st h).1.resource_manager.callbacks =
      cbsFor n h.resource_manager.callbacks := by
  cases st with
  | ensure vm_name d f =>
    have hne : vm_name ≠ n := by simpa [isEnsureOf] using hnot
    exact ensure_preserves env defs vm_name d f h n (hhost d) hne
  | gethost vm_name =>
    rcases hg : get_hostname h vm_name with e | v <;>
      constructor <;> simp [runStep, hg]
  | closeAll => exact absurd rfl hnc

theorem runSteps_preserves (env : Env) (defs : List String) :
    ∀ (steps : List Step) (h : VirtualMachineHelper) (n : String),
      (∀ d2, n ≠ vmHostname d2) →
      ensureStepsFor n steps = [] →
      Step.closeAll ∉ steps →
      lookupA (runSteps env defs steps h).1.machines n = lookupA h.machines n ∧
      cbsFor n (runSteps env defs steps h).1.resource_manager.callbacks =
        cbsFor n h.resource_manager.callbacks := by
  intro steps
  induction steps with
  | nil => intro h n _ _ _; exact ⟨rfl, rfl⟩
  | cons st rest ih =>
    intro h n hhost hens hnc
    have hstens : isEnsureOf n st = false := by
      by_cases hcase : isEnsureOf n st
      · have hcons : ensureStepsFor n (st :: rest) = st :: ensureStepsFor n rest := by
          simp [ensureStepsFor, hcase]
        rw [hcons] at hens
        exact absurd hens (by simp)
      · simpa using hcase
    have hens2 : ensureStepsFor n rest = [] := by
      simpa [ensureStepsFor, hstens] using hens
    have hstnc : st ≠ Step.closeAll := fun hcon => hnc (hcon ▸ List.mem_cons_self _ _)
    have hncr : Step.closeAll ∉ rest := fun hcon => hnc (List.mem_cons_of_mem _ hcon)
    rcases hst : runStep env defs st h with ⟨h1, cs1, e1⟩
    obtain ⟨hm1, hs1⟩ := runStep_preserves env defs st h n hhost hstens hstnc
    rw [hst] at hm1 hs1
    cases e1 with
    | some e =>
      rw [runSteps, hst]
      exact ⟨hm1, hs1⟩
    | none =>
      obtain ⟨hm2, hs2⟩ := ih h1 n hhost hens2 hncr
      rw [runSteps, hst]
      exact ⟨by simpa [hm2] using hm1, by simpa [hs2] using hs1⟩

theorem runSteps_single_ensure (env : Env) (defs : List String) :
    ∀ (steps : List Step) (h : VirtualMachineHelper) (n d : String) (f : Bool),
      (∀ d2, n ≠ vmHostname d2) →
      ensureStepsFor n steps = [Step.ensure n d f] →
      Step.closeAll ∉ steps →
      (runSteps env defs steps h).2.2 = none →
      lookupA (runSteps env defs steps h).1.machines n = some (vmHostname d) ∧
      cbsFor n (runSteps env defs steps h).1.resource_manager.callbacks =
        (if f then TeardownAction.destroyA n else TeardownAction.haltA n) ::
          cbsFor n h.resource_manager.callbacks := by
  intro steps
  induction steps with
  | nil => intro h n d f _ hens _ _; exact absurd hens (by simp [ensureStepsFor])
  | cons st rest ih =>
    intro h n d f hhost hens hnc hok
    have hstnc : st ≠ Step.closeAll := fun hcon => hnc (hcon ▸ List.mem_cons_self _ _)
    have hncr : Step.closeAll ∉ rest := fun hcon => hnc (List.mem_cons_of_mem _ hcon)
    rcases hst : runStep env defs st h with ⟨h1, cs1, e1⟩
    cases e1 with
    | some e =>
      rw [runSteps, hst] at hok
      exact absurd hok (by simp)
    | none =>
      have hok2 : (runSteps env defs rest h1).2.2 = none := by
        rw [runSteps, hst] at hok
        simpa using hok
      by_cases hcase : isEnsureOf n st
      · have hsplit : st :: ensureStepsFor n rest = [Step.ensure n d f] := by
          simpa [ensureStepsFor, hcase] using hens
        have hstep : st = Step.ensure n d f := (List.cons_eq_cons.mp hsplit).1
        have hrest : ensureStepsFor n rest = [] := (List.cons_eq_cons.mp hsplit).2
        subst hstep
        have hokstep : (ensure_local_vm env defs n d f h).2.2 = none := by
          have hcopy : (runStep env defs (Step.ensure n d f) h).2.2 = none := by
            rw [hst]
          simpa [runStep] using hcopy
        obtain ⟨hm1, hs1⟩ := ensure_self env defs n d f h hokstep
        have hst2 : ensure_local_vm env defs n d f h = (h1, cs1, none) := by
          simpa [runStep] using hst
        rw [hst2] at hm1 hs1
        obtain ⟨hm2, hs2⟩ :=
          runSteps_preserves env defs rest h1 n hhost hrest hncr
        rw [runSteps, hst]
        exact ⟨by simpa [hm2] using hm1, by simpa [hs2] using hs1⟩
      · have hstens : isEnsureOf n st = false := by simpa using hcase
        have hens2 : ensureStepsFor n rest = [Step.ensure n d f] := by
          simpa [ensureStepsFor, hstens] using hens
        obtain ⟨hm1, hs1⟩ := runStep_preserves env defs st h n hhost hstens hstnc
        rw [hst] at hm1 hs1
        obtain ⟨hm2, hs2⟩ := ih h1 n d f hhost hens2 hncr hok2
        rw [runSteps, hst]
        exact ⟨by simpa [hm1] using hm2, by simpa [hs1] using hs2⟩

theorem runTeardown_found (env : Env) (cb : TeardownAction) (m : Machines)
    (hostname : String) (hlook : lookupA m cb.vmName = some hostname) :
    runTeardown env cb m =
      (eraseA m cb.vmName, [⟨cb.cmd, cb.vmName, hostname⟩], none) := by
  cases cb with
  | haltA vm_name =>
    simp only [TeardownAction.vmName] at hlook
    simp [runTeardown, _vm_halt, popA, hlook, _run_command,
      TeardownAction.vmName, TeardownAction.cmd]
  | destroyA vm_name =>
    simp only [TeardownAction.vmName] at hlook
    simp [runTeardown, _vm_destroy, popA, hlook, _run_command,
      TeardownAction.vmName, TeardownAction.cmd]

theorem runTeardown_missing (env : Env) (cb : TeardownAction) (m : Machines)
    (hlook : lookupA m cb.vmName = none) :
    runTeardown env cb m = (m, [], some Err.keyError) := by
  cases cb with
  | haltA vm_name =>
    simp only [TeardownAction.vmName] at hlook
    simp [runTeardown, _vm_halt, popA, hlook]
  | destroyA vm_name =>
    simp only [TeardownAction.vmName] at hlook
    simp [runTeardown, _vm_destroy, popA, hlook]

theorem unwindAll_calls_no_cb (env : Env) :
    ∀ (cbs : List TeardownAction) (m : Machines) (n : String),
      cbsFor n cbs = [] →
      (unwindAll env cbs m).2.1.filter (fun c => c.vm_name == n) = [] := by
  intro cbs
  induction cbs with
  | nil => intro m n _; rfl
  | cons cb rest ih =>
    intro m n hno
    have hne : cb.vmName ≠ n := by
      intro hcon
      rw [cbsFor_cons, if_pos hcon] at hno
      exact absurd hno (by simp)
    have hrest : cbsFor n rest = [] := by
      rw [cbsFor_cons, if_neg hne] at hno
      exact hno
    rcases hl : lookupA m cb.vmName with _ | v
    · rw [unwindAll, runTeardown_missing env cb m hl]
      simpa using ih m n hrest
    · rw [unwindAll, runTeardown_found env cb m v hl]
      have := ih (eraseA m cb.vmName) n hrest
      simpa [hne] using this

theorem unwindAll_calls_single_cb (env : Env) :
    ∀ (cbs : List TeardownAction) (m : Machines) (n hostname : String)
      (cb : TeardownAction),
      cbsFor n cbs = [cb] →
      lookupA m n = some hostname →
      (unwindAll env cbs m).2.1.filter (fun c => c.vm_name == n) =
        [⟨cb.cmd, n, hostname⟩] := by
  intro cbs
  induction cbs with
  | nil => intro m n hostname cb hone _; exact absurd hone (by simp [cbsFor])
  | cons cb2 rest ih =>
    intro m n hostname cb hone hlook
    by_cases hv : cb2.vmName = n
    · rw [cbsFor_cons, if_pos hv] at hone
      have hcb : cb2 = cb := (List.cons_eq_cons.mp hone).1
      have hrest : cbsFor n rest = [] := (List.cons_eq_cons.mp hone).2
      subst hcb
      have hl2 : lookupA m cb2.vmName = some hostname := by rw [hv]; exact hlook
      rw [unwindAll, runTeardown_found env cb2 m hostname hl2, hv]
      have hno := unwindAll_calls_no_cb env rest (eraseA m n) n hrest
      rw [List.filter_append] at *
      simp only [List.filter_cons]
      rw [hno]
      simp
    · rw [cbsFor_cons, if_neg hv] at hone
      rcases hl : lookupA m cb2.vmName with _ | v
      · rw [unwindAll, runTeardown_missing env cb2 m hl]
        simpa using ih m n hostname cb hone hlook
      · rw [unwindAll, runTeardown_found env cb2 m v hl]
        have hlook2 : lookupA (eraseA m cb2.vmName) n = some hostname := by
          rw [lookupA_eraseA_ne m n cb2.vmName (fun hcon => hv hcon.symm)]
          exact hlook
        have := ih (eraseA m cb2.vmName) n hostname cb hone hlook2
        simpa [hv] using this

/-- C2 counterexample: a concrete scenario that successfully acquires
"src" with destroy=false and "dst" with destroy=true (the opening step
registers the beta hostname under a logical name equal to that hostname,
which is what the hostname-keyed pop of a destroy-acquisition needs to
succeed), and whose scenario-end hook performs zero vagrant calls — in
particular "src" does not receive a halt call when the scenario ends,
because `before_scenario` registers `vm_helper.close` on the process-wide
`_global_cleanup` stack, not on `scenario_cleanup`. -/
theorem c2_counterexample :
    ensureStepsFor "src"
        [Step.ensure "leapp-tests-beta" "beta" false,
         Step.ensure "src" "alpha" false,
         Step.ensure "dst" "beta" true] = [Step.ensure "src" "alpha" false] ∧
    ensureStepsFor "dst"
        [Step.ensure "leapp-tests-beta" "beta" false,
         Step.ensure "src" "alpha" false,
         Step.ensure "dst" "beta" true] = [Step.ensure "dst" "beta" true] ∧
    (runSteps envAllOk ["alpha", "beta"]
        [Step.ensure "leapp-tests-beta" "beta" false,
         Step.ensure "src" "alpha" false,
         Step.ensure "dst" "beta" true]
        (before_scenario_hook before_all).vm_helper).2.2 = none ∧
    (after_scenario_hook envAllOk
        (scenarioRun envAllOk ["alpha", "beta"]
          [Step.ensure "leapp-tests-beta" "beta" false,
           Step.ensure "src" "alpha" false,
           Step.ensure "dst" "beta" true])).2.1 = [] := by
  refine ⟨by decide, by decide, by decide, by decide⟩

/-- C2 (amended): for every scenario consisting of registry operations
that acquires "src" exactly once with destroy=false and "dst" exactly
once with destroy=true, all steps succeeding and none of them an eager
close, the scenario-end hook issues NO halt or destroy call (the helper's
close is registered on the process-wide cleanup stack); the calls happen
when the run ends: the `after_all` unwind issues exactly one halt naming
"src" (against its backing hostname) and exactly one destroy naming
"dst". -/
theorem c2_halt_destroy_at_run_end (env : Env) (defs : List String)
    (steps : List Step) (d1 d2 : String)
    (hsrc : ensureStepsFor "src" steps = [Step.ensure "src" d1 false])
    (hdst : ensureStepsFor "dst" steps = [Step.ensure "dst" d2 true])
    (hnc : Step.closeAll ∉ steps)
    (hok : (runSteps env defs steps
      (before_scenario_hook before_all).vm_helper).2.2 = none) :
    (after_scenario_hook env (scenarioRun env defs steps)).2.1 = [] ∧
    ((after_all_hook env
        (after_scenario_hook env (scenarioRun env defs steps)).1).2.1.filter
          (fun c => c.vm_name == "src")) =
      [⟨VagrantCmd.halt, "src", vmHostname d1⟩] ∧
    ((after_all_hook env
        (after_scenario_hook env (scenarioRun env defs steps)).1).2.1.filter
          (fun c => c.vm_name == "dst")) =
      [⟨VagrantCmd.destroy, "dst", vmHostname d2⟩] := by
  obtain ⟨hm1, hs1⟩ := runSteps_single_ensure env defs steps
    (before_scenario_hook before_all).vm_helper "src" d1 false
    (fun d2 => short_ne_vmHostname "src" (by decide) d2)
    hsrc hnc hok
  obtain ⟨hm2, hs2⟩ := runSteps_single_ensure env defs steps
    (before_scenario_hook before_all).vm_helper "dst" d2 true
    (fun d2 => short_ne_vmHostname "dst" (by decide) d2)
    hdst hnc hok
  have hcb1 : cbsFor "src"
      (runSteps env defs steps
        (before_scenario_hook before_all).vm_helper).1.resource_manager.callbacks =
      [TeardownAction.haltA "src"] := by
    simpa [before_scenario_hook, before_all, VirtualMachineHelper.start,
      ExitStack.init, cbsFor] using hs1
  have hcb2 : cbsFor "dst"
      (runSteps env defs steps
        (before_scenario_hook before_all).vm_helper).1.resource_manager.callbacks =
      [TeardownAction.destroyA "dst"] := by
    simpa [before_scenario_hook, before_all, VirtualMachineHelper.start,
      ExitStack.init, cbsFor] using hs2
  have hcalls : (after_all_hook env
      (after_scenario_hook env (scenarioRun env defs steps)).1).2.1 =
      (unwindAll env
        (runSteps env defs steps
          (before_scenario_hook before_all).vm_helper).1.resource_manager.callbacks
        (runSteps env defs steps
          (before_scenario_hook before_all).vm_helper).1.machines).2.1 := by
    simp [after_all_hook, after_scenario_hook, scenarioRun,
      before_scenario_hook, runCleanupStack, runCleanupCb,
      VirtualMachineHelper.close]
  refine ⟨?_, ?_, ?_⟩
  · simp [after_scenario_hook, scenarioRun, before_scenario_hook,
      runCleanupStack]
  · rw [hcalls]
    have := unwindAll_calls_single_cb env
      (runSteps env defs steps
        (before_scenario_hook before_all).vm_helper).1.resource_manager.callbacks
      (runSteps env defs steps
        (before_scenario_hook before_all).vm_helper).1.machines
      "src" (vmHostname d1) (TeardownAction.haltA "src") hcb1 hm1
    simpa [TeardownAction.cmd] using this
  · rw [hcalls]
    have := unwindAll_calls_single_cb env
      (runSteps env defs steps
        (before_scenario_hook before_all).vm_helper).1.resource_manager.callbacks
      (runSteps env defs steps
        (before_scenario_hook before_all).vm_helper).1.machines
      "dst" (vmHostname d2) (TeardownAction.destroyA "dst") hcb2 hm2
    simpa [TeardownAction.cmd] using this

/-- Witness for C2: the amended theorem applied to the concrete scenario
of the counterexample — at run end, exactly one halt naming "src" and one
destroy naming "dst". -/
theorem c2_halt_destroy_at_run_end_witness :
    ((after_all_hook envAllOk
        (after_scenario_hook envAllOk
          (scenarioRun envAllOk ["alpha", "beta"]
            [Step.ensure "leapp-tests-beta" "beta" false,
             Step.ensure "src" "alpha" false,
             Step.ensure "dst" "beta" true])).1).2.1.filter
          (fun c => c.vm_name == "src")) =
      [⟨VagrantCmd.halt, "src", vmHostname "alpha"⟩] ∧
    ((after_all_hook envAllOk
        (after_scenario_hook envAllOk
          (scenarioRun envAllOk ["alpha", "beta"]
            [Step.ensure "leapp-tests-beta" "beta" false,
             Step.ensure "src" "alpha" false,
             Step.ensure "dst" "beta" true])).1).2.1.filter
          (fun c => c.vm_name == "dst")) =
      [⟨VagrantCmd.destroy, "dst", vmHostname "beta"⟩] :=
  ⟨(c2_halt_destroy_at_run_end envAllOk ["alpha", "beta"]
      [Step.ensure "leapp-tests-beta" "beta" false,
       Step.ensure "src" "alpha" false,
       Step.ensure "dst" "beta" true] "alpha" "beta"
      (by decide) (by decide) (by decide) (by decide)).2.1,
   (c2_halt_destroy_at_run_end envAllOk ["alpha", "beta"]
      [Step.ensure "leapp-tests-beta" "beta" false,
       Step.ensure "src" "alpha" false,
       Step.ensure "dst" "beta" true] "alpha" "beta"
      (by decide) (by decide) (by decide) (by decide)).2.2⟩

/-! Membership facts about the registry map, for the
up-implies-teardown invariant. -/

theorem mem_eraseA :
    ∀ (m : Machines) (k : String) (p : String × String),
      p ∈ eraseA m k → p ∈ m ∧ p.1 ≠ k := by
  intro m
  induction m with
  | nil => intro k p hp; exact absurd hp (by simp [eraseA])
  | cons q rest ih =>
    intro k p hp
    by_cases hq : q.1 = k
    · rw [eraseA, if_pos hq] at hp
      obtain ⟨hpm, hpk⟩ := ih k p hp
      exact ⟨List.mem_cons_of_mem _ hpm, hpk⟩
    · rw [eraseA, if_neg hq] at hp
      rcases List.mem_cons.mp hp with hpq | hpm
      · subst hpq
        exact ⟨List.mem_cons_self _ _, hq⟩
      · obtain ⟨hpm2, hpk⟩ := ih k p hpm
        exact ⟨List.mem_cons_of_mem _ hpm2, hpk⟩

theorem mem_insertA (m : Machines) (k v : String) (p : String × String)
    (hp : p ∈ insertA m k v) : p = (k, v) ∨ p ∈ m := by
  rcases List.mem_cons.mp hp with hpq | hpm
  · exact Or.inl hpq
  · exact Or.inr (mem_eraseA m k p hpm).1

theorem lookupA_isSome_of_mem :
    ∀ (m : Machines) (p : String × String),
      p ∈ m → (lookupA m p.1).isSome = true := by
  intro m
  induction m with
  | nil => intro p hp; exact absurd hp (by simp)
  | cons q rest ih =>
    intro p hp
    by_cases hq : q.1 = p.1
    · simp [lookupA, hq]
    · rcases List.mem_cons.mp hp with hpq | hpm
      · exact absurd (congrArg Prod.fst hpq.symm) hq
      · simpa [lookupA, hq] using ih p hpm

/-- The up-implies-teardown invariant of the registry: every machine that
is recorded as up has at least one teardown callback registered under its
logical name. -/
def UpInv (h : VirtualMachineHelper) : Prop :=
  ∀ p ∈ h.machines, ∃ cb ∈ h.resource_manager.callbacks,
    TeardownAction.vmName cb = p.1

/-- When the invariant holds, an `ExitStack` unwind releases every
machine: each registered name's first callback pops it, so the registry
map is empty afterwards. -/
theorem unwindAll_clears (env : Env) :
    ∀ (cbs : List TeardownAction) (m : Machines),
      (∀ p ∈ m, ∃ cb ∈ cbs, TeardownAction.vmName cb = p.1) →
      (unwindAll env cbs m).1 = [] := by
  intro cbs
  induction cbs with
  | nil =>
    intro m hinv
    cases m with
    | nil => rfl
    | cons p rest => exact absurd (hinv p (List.mem_cons_self _ _)) (by simp)
  | cons cb rest ih =>
    intro m hinv
    rcases hl : lookupA m cb.vmName with _ | v
    · rw [unwindAll, runTeardown_missing env cb m hl]
      apply ih m
      intro p hp
      obtain ⟨cb2, hcb2, hname⟩ := hinv p hp
      rcases List.mem_cons.mp hcb2 with hcb2h | hcb2r
      · subst hcb2h
        have := lookupA_isSome_of_mem m p hp
        rw [← hname] at this
        rw [hl] at this
        exact absurd this (by simp)
      · exact ⟨cb2, hcb2r, hname⟩
    · rw [unwindAll, runTeardown_found env cb m v hl]
      apply ih (eraseA m cb.vmName)
      intro p hp
      obtain ⟨hpm, hpk⟩ := mem_eraseA m cb.vmName p hp
      obtain ⟨cb2, hcb2, hname⟩ := hinv p hpm
      rcases List.mem_cons.mp hcb2 with hcb2h | hcb2r
      · subst hcb2h
        exact absurd hname (fun hcon => hpk hcon.symm)
      · exact ⟨cb2, hcb2r, hname⟩

/-- Every registry step preserves the up-implies-teardown invariant,
whether it succeeds or raises. -/
theorem runStep_upinv (env : Env) (defs : List String) (st : Step)
    (h : VirtualMachineHelper) (hinv : UpInv h) :
    UpInv (runStep env defs st h).1 := by
  cases st with
  | ensure vm_name d f =>
    by_cases hc : vmHostname d ∈ hostnamesOf defs
    · cases f with
      | false =>
        by_cases hup : env.vagrant VagrantCmd.up (vmHostname d)
        · have hred : (runStep env defs (Step.ensure vm_name d false) h).1 =
              ⟨insertA h.machines vm_name (vmHostname d),
               ⟨TeardownAction.haltA vm_name :: h.resource_manager.callbacks⟩⟩ := by
            simp [runStep, ensure_local_vm, hc, _vm_up, _run_command, hup,
              ExitStack.callback]
          rw [hred]
          intro p hp
          rcases mem_insertA h.machines vm_name (vmHostname d) p hp with hpq | hpm
          · exact ⟨TeardownAction.haltA vm_name, List.mem_cons_self _ _,
              by rw [hpq]; rfl⟩
          · obtain ⟨cb, hcb, hname⟩ := hinv p hpm
            exact ⟨cb, List.mem_cons_of_mem _ hcb, hname⟩
        · have hred : (runStep env defs (Step.ensure vm_name d false) h).1 = h := by
            simp [runStep, ensure_local_vm, hc, _vm_up, _run_command, hup]
          rw [hred]
          exact hinv
      | true =>
        rcases hl : lookupA h.machines (vmHostname d) with _ | v
        · have hred : (runStep env defs (Step.ensure vm_name d true) h).1 = h := by
            simp [runStep, ensure_local_vm, hc, _vm_destroy, popA, hl]
          rw [hred]
          exact hinv
        · by_cases hup : env.vagrant VagrantCmd.up (vmHostname d)
          · have hred : (runStep env defs (Step.ensure vm_name d true) h).1 =
                ⟨insertA (eraseA h.machines (vmHostname d)) vm_name (vmHostname d),
                 ⟨TeardownAction.destroyA vm_name :: h.resource_manager.callbacks⟩⟩ := by
              simp [runStep, ensure_local_vm, hc, _vm_destroy, popA, hl,
                _vm_up, _run_command, hup, ExitStack.callback]
            rw [hred]
            intro p hp
            rcases mem_insertA _ vm_name (vmHostname d) p hp with hpq | hpm
            · exact ⟨TeardownAction.destroyA vm_name, List.mem_cons_self _ _,
                by rw [hpq]; rfl⟩
            · obtain ⟨cb, hcb, hname⟩ :=
                hinv p (mem_eraseA h.machines (vmHostname d) p hpm).1
              exact ⟨cb, List.mem_cons_of_mem _ hcb, hname⟩
          · have hred : (runStep env defs (Step.ensure vm_name d true) h).1 =
                ⟨eraseA h.machines (vmHostname d), h.resource_manager⟩ := by
              simp [runStep, ensure_local_vm, hc, _vm_destroy, popA, hl,
                _vm_up, _run_command, hup]
            rw [hred]
            intro p hp
            exact hinv p (mem_eraseA h.machines (vmHostname d) p hp).1
    · have hred : (runStep env defs (Step.ensure vm_name d f) h).1 = h := by
        simp [runStep, ensure_local_vm, hc]
      rw [hred]
      exact hinv
  | gethost vm_name =>
    rcases hg : get_hostname h vm_name with e | v <;>
      simpa [runStep, hg] using hinv
  | closeAll =>
    have hclear := unwindAll_clears env h.resource_manager.callbacks h.machines hinv
    intro p hp
    simp only [runStep, VirtualMachineHelper.close] at hp
    rw [hclear] at hp
    exact absurd hp (by simp)

theorem runSteps_upinv (env : Env) (defs : List String) :
    ∀ (steps : List Step) (h : VirtualMachineHelper),
      UpInv h → UpInv (runSteps env defs steps h).1 := by
  intro steps
  induction steps with
  | nil => intro h hinv; exact hinv
  | cons st rest ih =>
    intro h hinv
    rcases hst : runStep env defs st h with ⟨h1, cs1, e1⟩
    have h1inv : UpInv h1 := by
      have := runStep_upinv env defs st h hinv
      rw [hst] at this
      exact this
    cases e1 with
    | some e =>
      rw [runSteps, hst]
      exact h1inv
    | none =>
      rw [runSteps, hst]
      exact ih h1 h1inv

theorem runSteps_append (env : Env) (defs : List String) :
    ∀ (steps1 steps2 : List Step) (h : VirtualMachineHelper),
      runSteps env defs (steps1 ++ steps2) h =
        match runSteps env defs steps1 h with
        | (h1, cs1, some e) => (h1, cs1, some e)
        | (h1, cs1, none) =>
          ((runSteps env defs steps2 h1).1,
           cs1 ++ (runSteps env defs steps2 h1).2.1,
           (runSteps env defs steps2 h1).2.2) := by
  intro steps1
  induction steps1 with
  | nil => intro steps2 h; simp [runSteps]
  | cons st rest ih =>
    intro steps2 h
    rcases hst : runStep env defs st h with ⟨h1, cs1, e1⟩
    cases e1 with
    | some e =>
      rw [List.cons_append, runSteps, hst, runSteps, hst]
    | none =>
      rw [List.cons_append, runSteps, hst, runSteps, hst]
      simp only [ih steps2 h1]
      rcases hrest : runSteps env defs rest h1 with ⟨h2, cs2, e2⟩
      cases e2 <;> simp [hrest, List.append_assoc]

/-- C5 counterexample: two ways an acquired logical name fails to keep a
single backing hostname. First, re-acquiring the same name "web" with a
different definition rebinds it — after the first ensure it maps to the
cen6 hostname, after the second to the cen7 hostname. Second, a logical
name equal to a backing hostname ("leapp-tests-beta"), acquired exactly
once with every step succeeding and no eager close, loses its binding
entirely: a later destroy=true acquisition executes
`self._machines.pop(hostname)` and removes that very key, so
`get_hostname` raises `KeyError` at scenario end. -/
theorem c5_counterexample :
    (runSteps envAllOk ["cen6", "cen7"]
        [Step.ensure "web" "cen6" false] VirtualMachineHelper.start).2.2 =
      none ∧
    get_hostname (runSteps envAllOk ["cen6", "cen7"]
        [Step.ensure "web" "cen6" false] VirtualMachineHelper.start).1 "web" =
      .ok "leapp-tests-cen6" ∧
    (runSteps envAllOk ["cen6", "cen7"]
        [Step.ensure "web" "cen6" false, Step.ensure "web" "cen7" false]
        VirtualMachineHelper.start).2.2 = none ∧
    get_hostname (runSteps envAllOk ["cen6", "cen7"]
        [Step.ensure "web" "cen6" false, Step.ensure "web" "cen7" false]
        VirtualMachineHelper.start).1 "web" = .ok "leapp-tests-cen7" ∧
    (runSteps envAllOk ["beta"]
        [Step.ensure "leapp-tests-beta" "beta" false,
         Step.ensure "q" "beta" true]
        VirtualMachineHelper.start).2.2 = none ∧
    get_hostname (runSteps envAllOk ["beta"]
        [Step.ensure "leapp-tests-beta" "beta" false,
         Step.ensure "q" "beta" true]
        VirtualMachineHelper.start).1 "leapp-tests-beta" =
      .error Err.keyError := by
  refine ⟨by decide, rfl, by decide, rfl, by decide, rfl⟩

/-- C5 (amended): (a) a logical name that is not itself a backing
hostname (not of the form `"leapp-tests-" ++ definition`), acquired
exactly once by a succeeding prefix of the scenario's steps and never
eagerly closed, maps to the same backing hostname from its acquisition to
the end of the scenario — even when steps after the acquisition fail.
The original claim's unrestricted "exactly one hostname" wording fails
both on re-acquisition (which rebinds the name) and on hostname-shaped
names (whose registry key a later destroy=true acquisition pops); (b) for
every step sequence, no VM is recorded as up without a teardown callback
registered under its logical name (the up-implies-teardown invariant is
preserved by `ensure_local_vm`, `get_hostname` and `close`, including
failing steps). -/
theorem c5_registry_invariants (env : Env) (defs : List String) :
    (∀ (steps1 steps2 : List Step) (n d : String) (f : Bool),
      (∀ d2, n ≠ vmHostname d2) →
      ensureStepsFor n steps1 = [Step.ensure n d f] →
      ensureStepsFor n steps2 = [] →
      Step.closeAll ∉ steps1 → Step.closeAll ∉ steps2 →
      (runSteps env defs steps1 VirtualMachineHelper.start).2.2 = none →
      get_hostname (runSteps env defs steps1
        VirtualMachineHelper.start).1 n = .ok (vmHostname d) ∧
      get_hostname (runSteps env defs (steps1 ++ steps2)
        VirtualMachineHelper.start).1 n = .ok (vmHostname d)) ∧
    (∀ steps : List Step,
      UpInv (runSteps env defs steps VirtualMachineHelper.start).1) := by
  constructor
  · intro steps1 steps2 n d f hhost hens1 hens2 hnc1 hnc2 hok1
    rcases h1res : runSteps env defs steps1 VirtualMachineHelper.start
      with ⟨h1, cs1, e1⟩
    have he1 : e1 = none := by
      rw [h1res] at hok1
      simpa using hok1
    subst he1
    obtain ⟨hm1, -⟩ := runSteps_single_ensure env defs steps1
      VirtualMachineHelper.start n d f hhost hens1 hnc1 (by rw [h1res])
    have hm1h : lookupA h1.machines n = some (vmHostname d) := by
      rw [h1res] at hm1
      exact hm1
    obtain ⟨hm2, -⟩ := runSteps_preserves env defs steps2 h1 n hhost
      hens2 hnc2
    have hwhole : lookupA (runSteps env defs (steps1 ++ steps2)
        VirtualMachineHelper.start).1.machines n = some (vmHostname d) := by
      rw [runSteps_append, h1res]
      simpa using hm2.trans hm1h
    constructor
    · simp [get_hostname, hm1h]
    · simp [get_hostname, hwhole]
  · intro steps
    apply runSteps_upinv
    intro p hp
    exact absurd hp (by simp [VirtualMachineHelper.start])

/-- Witness for C5: both parts of the amended claim on a concrete
scenario — "db" keeps its hostname to the end of the scenario even
though the step after its acquisition fails (a `get_hostname` of an
unknown name), and the invariant holds after the acquisition. -/
theorem c5_registry_invariants_witness :
    (get_hostname (runSteps envAllOk ["f1"]
        [Step.ensure "db" "f1" false] VirtualMachineHelper.start).1 "db" =
      .ok (vmHostname "f1") ∧
     get_hostname (runSteps envAllOk ["f1"]
        ([Step.ensure "db" "f1" false] ++ [Step.gethost "nope"])
        VirtualMachineHelper.start).1 "db" = .ok (vmHostname "f1")) ∧
    UpInv (runSteps envAllOk ["f1"]
      [Step.ensure "db" "f1" false] VirtualMachineHelper.start).1 :=
  ⟨(c5_registry_invariants envAllOk ["f1"]).1
      [Step.ensure "db" "f1" false] [Step.gethost "nope"] "db" "f1" false
      (fun d2 => short_ne_vmHostname "db" (by decide) d2)
      (by decide) (by decide) (by decide) (by decide) (by decide),
   (c5_registry_invariants envAllOk ["f1"]).2 [Step.ensure "db" "f1" false]⟩
